import Mathlib

/-!
Verification development for the lambda-express serverless routing library.

The library adapts API-Gateway-style and load-balancer-style Lambda invocation
events into one canonical request/response model, routes the request through an
ordered list of processor chains with Express-style middleware semantics, and
serializes the accumulated response back to the shape the event source expects.

This file gives a shallow embedding of the parts of the code that the verified
properties are about:

  - the mutable request model: url assignment with suffix rewriting up the
    parent chain (src/Request.ts, url setter and constructor), sub-request
    derivation (makeSubRequest);
  - header parsing and lookup (Request.get, Request.headerAll,
    Request.parseHeaders, Request.getHeaderKey);
  - the response model: header mutation guarded by the headersSent flag
    (Response.set / append / delete), status bookkeeping (Response.status) and
    terminal serialization (Response.end);
  - route patterns and path-parameter extraction with percent-decoding
    (chains/RouteMatchingProcessorChain, modelling the path-to-regexp collaborator
    on patterns made of literal and named segments), and loose prefix matching
    for sub-router mounts (chains/SubRouterProcessorChain);
  - handler wrapping (utils/wrapRequestProcessor, the promise-aware revision),
    the per-chain run loop with its route sentinel and catch boundary
    (chains/ProcessorChain.run), the router dispatch loop (Router.handle), the
    registration surface (Router.use / mount / addSubRouter,
    Application.setSetting) and the application entry point (Application.run
    with its handler of last resort).

JavaScript strings are modelled as lists of characters, JavaScript errors and
loosely-typed values as the inductive JSVal, thrown exceptions as explicit
outcome constructors, and the synchronous continuation-passing control flow of
the dispatch loop as direct-style recursion over the processor list.  Handlers
are embedded as finite scripts of primitive effects (send a status, rewrite the
request url) followed by one terminal action (call next, halt, or throw); a
handler calls its continuation at most once, in tail position, which matches the
synchronous handler shapes the proved properties quantify over.
-/

set_option maxHeartbeats 2000000

namespace LambdaExpress

/-! ## JavaScript value model -/

/-- Model of the loosely-typed JavaScript values that flow through the error
argument of continuations and through the settings store: undefined, booleans,
strings, and Error objects (with the optional statusCode property that
RouteMatchingProcessorChain attaches to decode failures). -/
inductive JSVal where
  | undef
  | bool (b : Bool)
  | str (s : String)
  | err (msg : String) (statusCode : Option Nat)
  deriving DecidableEq, Repr

/-- JavaScript truthiness for the modelled values: undefined is falsy, a string
is truthy when nonempty, an Error object is truthy. -/
def JSVal.truthy : JSVal → Bool
  | .undef => false
  | .bool b => b
  | .str s => s != ""
  | .err _ _ => true

/-- The reserved sentinel value: a handler passes the string "route" to its
continuation to end the current route chain early (ProcessorChain.run). -/
def routeSentinel : JSVal := .str "route"

/-- The URIError raised by decodeURIComponent on malformed percent-encoding,
with the statusCode 400 attached by RouteMatchingProcessorChain.makeParams. -/
def uriError400 : JSVal := .err "URI malformed" (some 400)

/-! ## Character-list string helpers -/

/-- Lowercase a character list (models toLowerCase on the ASCII header and path
data the library works with). -/
def lowerChars (cs : List Char) : List Char := cs.map Char.toLower

/-- JS s.substring(0, stop) where stop is an arbitrary (possibly negative)
number: a negative bound clamps to 0. -/
def substringTo (cs : List Char) (stop : Int) : List Char := cs.take stop.toNat

/-- JS url.split at the question mark, index 0: the prefix of the url strictly
before the first question mark (the whole url when it has none). -/
def beforeQuery (cs : List Char) : List Char := cs.takeWhile (fun c => c != '?')

/-- JS toLowerCase for the ASCII header names the library handles, defined
directly over the character data of the string so that it evaluates by kernel
reduction. -/
def jsToLower (s : String) : String := String.mk (s.data.map Char.toLower)

/-! ## Request model

A request is modelled by the routing-relevant fields of src/Request.ts; a
request together with its ancestors (the parentRequest links) is a list of
nodes, innermost (current) request first. -/

/-- Routing-relevant state of one Request object (src/Request.ts): the mutable
url and path, and the per-request baseUrl, originalUrl, parsed query and frozen
params. -/
structure ReqNode where
  url : List Char
  path : List Char
  baseUrl : List Char
  originalUrl : List Char
  query : List (String × String)
  params : List (String × List Char)
  deriving DecidableEq, Repr

/-- The url setter of src/Request.ts: when the request has a parent, the suffix
of the parent url corresponding to the old child url is replaced by the new
value (recursively, since the assignment to the parent runs the parent setter),
then the own url is replaced and the own path recomputed as the part of the new
url before the query string.  The list holds the request first and its
ancestors after it. -/
def setUrl (u : List Char) : List ReqNode → List ReqNode
  | [] => []
  | r :: parents =>
    let parentsNew :=
      match parents with
      | [] => []
      | p :: rest =>
        setUrl (substringTo p.url ((p.url.length : Int) - (r.url.length : Int)) ++ u) (p :: rest)
    { r with url := u, path := beforeQuery u } :: parentsNew

/-- The sub-request branch of the Request constructor (src/Request.ts, reached
through makeSubRequest): the child url is the parent url with the first
baseURL.length characters removed, the child baseUrl is the parent baseUrl
followed by baseURL, originalUrl and query are shared with the parent, and the
params of the child are the ones passed in.  The new node is pushed in front of
the parent chain. -/
def makeSubRequest (chain : List ReqNode) (baseURL : List Char)
    (params : List (String × List Char)) : List ReqNode :=
  match chain with
  | [] => []
  | parent :: _ =>
    let u := parent.url.drop baseURL.length
    { url := u
      path := beforeQuery u
      baseUrl := parent.baseUrl ++ baseURL
      originalUrl := parent.originalUrl
      query := parent.query
      params := params } :: chain

/-- Invariant relating a request to its ancestors: each request url is a suffix
of the url of its parent (equivalently, the parent url is some prefix of its
own followed by the child url).  The constructor establishes it: a child url is
the parent url with the mount prefix removed. -/
def urlSuffixInv (rs : List ReqNode) : Prop :=
  List.Chain' (fun c p => c.url <:+ p.url) rs

instance (rs : List ReqNode) : Decidable (urlSuffixInv rs) :=
  inferInstanceAs (Decidable (List.Chain' (fun (c p : ReqNode) => c.url <:+ p.url) rs))

/-- Concrete two-level request chain for the C5 witness: a child mounted at the
prefix "/admin" of the parent, as in the re-routing example of the Request url
documentation. -/
def c5ParentNode : ReqNode :=
  { url := "/admin/users/1337".toList
    path := "/admin/users/1337".toList
    baseUrl := [], originalUrl := "/admin/users/1337".toList
    query := [], params := [] }

def c5ChildNode : ReqNode :=
  { url := "/users/1337".toList
    path := "/users/1337".toList
    baseUrl := "/admin".toList, originalUrl := "/admin/users/1337".toList
    query := [], params := [] }

/-! ## Response model

State of one Response object (src/Response.ts): status bookkeeping, the ordered
multi-valued header map, the body, the headersSent flag, the event-source flag
of the request it answers (isALB), and the record of invocations of the Lambda
completion callback with their payloads.  The before-write and after-write
listener lists of the source are not modelled: no verified property involves
them and they are empty unless a handler registers one. -/

/-- The object passed to the Lambda callback by Response.end
(the ResponseResult shape of src/request-response-types.ts): statusDescription
and the single-valued headers map are only set for ALB-sourced requests. -/
structure ResponseResult where
  isBase64Encoded : Bool
  statusCode : Nat
  multiValueHeaders : List (String × List String)
  body : String
  statusDescription : Option String
  headers : Option (List (String × Option String))
  deriving DecidableEq, Repr

structure RespState where
  statusCode : Nat := 200
  statusMessage : String := "OK"
  headers : List (String × List String) := []
  body : String := ""
  headersSent : Bool := false
  isALB : Bool := false
  cbCalls : List ResponseResult := []
  deriving DecidableEq, Repr

/-- Modelled from the spec: the StatusCodes reason-phrase table imported from
src/status-codes.ts is not among the available sources.  The spec and the test
suite fix the behavior: recognized codes map to their standard IANA reason
phrase (the tests use 200 OK, 201 Created, 404 Not Found,
500 Internal Server Error), and unrecognized codes fall back to the stringified
code.  A representative subset of the standard table is embedded here; lookups
outside it return none. -/
def statusCodes : Nat → Option String
  | 200 => some "OK"
  | 201 => some "Created"
  | 204 => some "No Content"
  | 301 => some "Moved Permanently"
  | 302 => some "Found"
  | 400 => some "Bad Request"
  | 403 => some "Forbidden"
  | 404 => some "Not Found"
  | 500 => some "Internal Server Error"
  | 502 => some "Bad Gateway"
  | _ => none

/-- Response.status: store the code and the reason phrase from the StatusCodes
table, falling back to the stringified code for unrecognized codes. -/
def respStatus (code : Nat) (r : RespState) : RespState :=
  { r with statusCode := code
           statusMessage := (statusCodes code).getD (toString code) }

/-- The error thrown by Response.set and Response.append once headers have been
sent; the message uses the hex escape x27 for the apostrophe of the source
message. -/
def headersSentError : JSVal := .err "Can\x27t set headers after they are sent." none

/-- JS object assignment for the string-keyed maps of the model: when the key
already exists its value is replaced in place (insertion order kept), otherwise
the pair is appended. -/
def setKey {α : Type} (m : List (String × α)) (k : String) (v : α) : List (String × α) :=
  if m.any (fun p => p.1 == k) then
    m.map (fun p => if p.1 == k then (p.1, v) else p)
  else m ++ [(k, v)]

/-- Response.set (the two-argument form): throws once headers are sent,
otherwise replaces the values stored under the key with the singleton list. -/
def respSet (r : RespState) (k v : String) : Except JSVal RespState :=
  if r.headersSent then .error headersSentError
  else .ok { r with headers := setKey r.headers k [v] }

/-- Response.append: throws once headers are sent, otherwise pushes the given
value or values onto the (possibly freshly created, initially empty) list
stored under the key; one or more values are modelled as a list. -/
def respAppend (r : RespState) (k : String) (vs : List String) : Except JSVal RespState :=
  if r.headersSent then .error headersSentError
  else
    let base := if r.headers.any (fun p => p.1 == k) then r.headers else r.headers ++ [(k, [])]
    .ok { r with headers := base.map (fun p => if p.1 == k then (p.1, p.2 ++ vs) else p) }

/-- Response.delete: removes the header entry.  The source has no headersSent
guard here, so deletion is modelled as a total function. -/
def respDelete (r : RespState) (k : String) : RespState :=
  { r with headers := r.headers.filter (fun p => p.1 != k) }

/-- Response.end: builds the output object (isBase64Encoded false, the current
status code, a copy of the multi-valued header map, the body; for ALB-sourced
requests additionally the statusDescription line and the single-valued headers
map taking the last value of each header list), passes it to the Lambda
callback, and only then raises headersSent.  Note the source never checks
headersSent here, so every call reaches the callback. -/
def respEnd (r : RespState) : RespState :=
  let output : ResponseResult :=
    { isBase64Encoded := false
      statusCode := r.statusCode
      multiValueHeaders := r.headers
      body := r.body
      statusDescription :=
        if r.isALB then some (toString r.statusCode ++ " " ++ r.statusMessage) else none
      headers :=
        if r.isALB then some (r.headers.map (fun p => (p.1, p.2.getLast?))) else none }
  { r with cbCalls := r.cbCalls ++ [output], headersSent := true }

/-- Response.sendStatus: set the status then end the response. -/
def respSendStatus (code : Nat) (r : RespState) : RespState :=
  respEnd (respStatus code r)

/-- Concrete fixtures for the C7 and C8 witnesses and the C8 counterexample. -/
def c7AlbState : RespState :=
  { isALB := true
    headers := [("X-Did-Something", ["mw1", "rh-hello2"])]
    body := "hello" }

def c8SentState : RespState :=
  { isALB := false
    headersSent := true
    headers := [("X-Test", ["1"])] }

/-! ## Request header parsing and lookup (claim C10) -/

/-- Header-relevant part of an incoming Lambda event: a possibly absent
single-valued headers map and a possibly absent multi-valued headers map whose
individual values may themselves be absent (the typed event allows undefined
values, which parseHeaders skips).  Maps are JS objects, modelled as ordered
association lists. -/
structure HeaderEvent where
  headers : Option (List (String × String)) := none
  multiValueHeaders : Option (List (String × Option (List String))) := none
  deriving DecidableEq, Repr

/-- One step of the reduce inside Request.parseHeaders: skip undefined values,
lowercase the name, store the value under the lowercased name (the source binds
it as key and as memo1; they are inlined here), and mirror referer to referrer
and vice versa. -/
def parseHeaderEntry (memo : List (String × List String)) :
    String × Option (List String) → List (String × List String)
  | (_, none) => memo
  | (k, some v) =>
    if jsToLower k == "referer" then setKey (setKey memo (jsToLower k) v) "referrer" v
    else if jsToLower k == "referrer" then setKey (setKey memo (jsToLower k) v) "referer" v
    else setKey memo (jsToLower k) v

/-- Request.parseHeaders: take the multi-valued map when present, otherwise
lift each single-valued header to a one-element list; then fold the entries in
order with parseHeaderEntry, starting from the empty map. -/
def parseHeaders (evt : HeaderEvent) : List (String × List String) :=
  let hs : List (String × Option (List String)) :=
    match evt.multiValueHeaders with
    | some m => m
    | none => (evt.headers.getD []).map (fun p => (p.1, some [p.2]))
  hs.foldl parseHeaderEntry []

/-- Request.getHeaderKey: lowercase the requested name and read referrer as
referer. -/
def getHeaderKey (n : String) : String :=
  if jsToLower n == "referrer" then "referer" else jsToLower n

/-- Request.get: the last element of the list stored under the normalized
name (undefined when the header is absent or its list is empty). -/
def reqGet (evt : HeaderEvent) (n : String) : Option String :=
  ((parseHeaders evt).lookup (getHeaderKey n)).bind List.getLast?

/-- Request.headerAll: the whole list stored under the normalized name. -/
def reqHeaderAll (evt : HeaderEvent) (n : String) : Option (List String) :=
  (parseHeaders evt).lookup (getHeaderKey n)

/-- Specification-side view of header lookup over the raw event: the defined
value lists of the event entries whose normalized name equals the requested
slot, in event order.  The parsed map should hold, for each slot, the last of
these. -/
def relevantValues (mvh : List (String × Option (List String))) (q : String) :
    List (List String) :=
  mvh.filterMap (fun p =>
    match p with
    | (_, none) => none
    | (k, some v) => if getHeaderKey k == q then some v else none)

/-- Concrete event fixture for the C10 witness: a header repeated with
different cases (the later entry overwriting the earlier slot) and a Referer
header reachable through the referrer alias. -/
def c10Event : HeaderEvent :=
  { multiValueHeaders :=
      some [("Foo", some ["a", "b"]), ("Referer", some ["r1"]), ("FOO", some ["c", "d"])] }

/-! ## Route patterns

Model of the path-to-regexp collaborator on the pattern subset the library
registers: absolute paths made of literal segments and named parameter
segments (a colon followed by the name).  Matching is segmentwise: a literal
segment must equal the path segment (up to ASCII case when compiled
case-insensitively), a parameter segment matches any nonempty path segment and
captures it.  One trailing slash on the path is tolerated, as in the default
non-strict mode of the library.  Optional and wildcard segments are not needed
by the verified properties and are not modelled. -/

/-- Segment of a compiled route pattern. -/
inductive Seg where
  | lit (cs : List Char)
  | par (name : String)
  deriving DecidableEq, Repr

/-- Split a character list at every slash (a path such as /a/b yields the
segments empty, a, b). -/
def splitSegs (cs : List Char) : List (List Char) :=
  cs.foldr
    (fun c acc =>
      if c = '/' then [] :: acc
      else
        match acc with
        | [] => [[c]]
        | s :: rest => (c :: s) :: rest)
    [[]]

/-- Drop one trailing empty segment (a trailing slash) when the list has more
than one segment: the non-strict trailing-slash tolerance. -/
def normSegs (l : List (List Char)) : List (List Char) :=
  match l.getLast? with
  | some [] => if 1 < l.length then l.dropLast else l
  | _ => l

/-- Compile one textual segment: a leading colon makes a named parameter. -/
def parseSeg (cs : List Char) : Seg :=
  match cs with
  | ':' :: rest => .par (String.mk rest)
  | _ => .lit cs

/-- Compile a route path into its segment list (the pattern compilation done
once, in the RouteMatchingProcessorChain constructor). -/
def parsePattern (p : List Char) : List Seg :=
  (normSegs (splitSegs p)).map parseSeg

/-- Match of one pattern segment against one path segment. -/
def segMatch (sensitive : Bool) : Seg → List Char → Bool
  | .lit l, s => if sensitive then l == s else lowerChars l == lowerChars s
  | .par _, s => !s.isEmpty

/-- The test of the compiled matcher against a path. -/
def patternTest (sensitive : Bool) (pat : List Seg) (path : List Char) : Bool :=
  let segs := normSegs (splitSegs path)
  pat.length == segs.length
    && (pat.zip segs).all (fun x => segMatch sensitive x.1 x.2)

/-- The exec of the compiled matcher: on match, the captured (still
percent-encoded) parameter values in pattern order. -/
def patternExec (sensitive : Bool) (pat : List Seg) (path : List Char) :
    Option (List (String × List Char)) :=
  if patternTest sensitive pat path then
    some ((pat.zip (normSegs (splitSegs path))).filterMap (fun x =>
      match x.1 with
      | .par n => some (n, x.2)
      | .lit _ => none))
  else none

/-! ## Percent decoding (decodeURIComponent) -/

/-- Value of one hexadecimal digit. -/
def hexVal (c : Char) : Option Nat :=
  if '0' ≤ c ∧ c ≤ '9' then some (c.toNat - '0'.toNat)
  else if 'a' ≤ c ∧ c ≤ 'f' then some (c.toNat - 'a'.toNat + 10)
  else if 'A' ≤ c ∧ c ≤ 'F' then some (c.toNat - 'A'.toNat + 10)
  else none

/-- Model of decodeURIComponent: percent-escape triples are decoded to bytes
and the bytes of one multi-byte UTF-8 sequence must all be given as
consecutive percent-escapes; any malformed escape, stray continuation byte,
overlong or out-of-range sequence yields none (the URIError of the host
function).  Other characters pass through unchanged.  A supplementary-plane
sequence decodes to the single scalar value here where the host string holds a
surrogate pair; the properties proved do not depend on that representation. -/
def decodeURIComponentM : List Char → Option (List Char)
  | [] => some []
  | '%' :: a :: b :: rest =>
    (match hexVal a, hexVal b with
     | some ha, some hb =>
       let x := 16 * ha + hb
       if x < 0x80 then
         (decodeURIComponentM rest).map (fun r => Char.ofNat x :: r)
       else if 0xC2 ≤ x ∧ x ≤ 0xDF then
         match rest with
         | '%' :: c :: d :: rest2 =>
           (match hexVal c, hexVal d with
            | some hc, some hd =>
              let y := 16 * hc + hd
              if 0x80 ≤ y ∧ y ≤ 0xBF then
                (decodeURIComponentM rest2).map
                  (fun r => Char.ofNat ((x - 0xC0) * 64 + (y - 0x80)) :: r)
              else none
            | _, _ => none)
         | _ => none
       else if 0xE0 ≤ x ∧ x ≤ 0xEF then
         match rest with
         | '%' :: c :: d :: '%' :: e :: f :: rest3 =>
           (match hexVal c, hexVal d, hexVal e, hexVal f with
            | some hc, some hd, some he, some hf =>
              let y := 16 * hc + hd
              let z := 16 * he + hf
              if ((if x = 0xE0 then 0xA0 ≤ y ∧ y ≤ 0xBF
                   else if x = 0xED then 0x80 ≤ y ∧ y ≤ 0x9F
                   else 0x80 ≤ y ∧ y ≤ 0xBF)
                  ∧ 0x80 ≤ z ∧ z ≤ 0xBF) then
                (decodeURIComponentM rest3).map
                  (fun r => Char.ofNat ((x - 0xE0) * 4096 + (y - 0x80) * 64 + (z - 0x80)) :: r)
              else none
            | _, _, _, _ => none)
         | _ => none
       else if 0xF0 ≤ x ∧ x ≤ 0xF4 then
         match rest with
         | '%' :: c :: d :: '%' :: e :: f :: '%' :: g :: j :: rest4 =>
           (match hexVal c, hexVal d, hexVal e, hexVal f, hexVal g, hexVal j with
            | some hc, some hd, some he, some hf, some hg, some hj =>
              let y := 16 * hc + hd
              let z := 16 * he + hf
              let w := 16 * hg + hj
              if ((if x = 0xF0 then 0x90 ≤ y ∧ y ≤ 0xBF
                   else if x = 0xF4 then 0x80 ≤ y ∧ y ≤ 0x8F
                   else 0x80 ≤ y ∧ y ≤ 0xBF)
                  ∧ 0x80 ≤ z ∧ z ≤ 0xBF ∧ 0x80 ≤ w ∧ w ≤ 0xBF) then
                (decodeURIComponentM rest4).map
                  (fun r => Char.ofNat
                    ((x - 0xF0) * 262144 + (y - 0x80) * 4096 + (z - 0x80) * 64 + (w - 0x80)) :: r)
              else none
            | _, _, _, _, _, _ => none)
         | _ => none
       else none
     | _, _ => none)
  | ['%', _] => none
  | ['%'] => none
  | c :: rest => (decodeURIComponentM rest).map (fun r => c :: r)

/-! ## Route parameter extraction (RouteMatchingProcessorChain.makeParams) -/

/-- Percent-decode the captured values in pattern order, skipping empty
captures; a decode failure raises the URIError with statusCode 400 attached
(the revision of makeParams that catches the URIError, tags it, and rethrows;
the src revision lets the bare URIError out — either way the error propagates
out of makeParams synchronously). -/
def decodeParams : List (String × List Char) → Except JSVal (List (String × List Char))
  | [] => .ok []
  | (n, v) :: rest =>
    if v.isEmpty then decodeParams rest
    else
      match decodeURIComponentM v with
      | some d => (decodeParams rest).map (fun ps => (n, d) :: ps)
      | none => .error uriError400

/-- RouteMatchingProcessorChain.makeParams: execute the compiled matcher on
the path; no match yields the empty parameter map, a match yields the decoded
captures (or the propagating URIError). -/
def makeParams (sensitive : Bool) (pat : List Seg) (path : List Char) :
    Except JSVal (List (String × List Char)) :=
  match patternExec sensitive pat path with
  | none => .ok []
  | some caps => decodeParams caps

/-! ## Sub-router mount matching (SubRouterProcessorChain) -/

/-- Loose (end-anchored-off, case-insensitive, non-strict) prefix match of a
literal mount path, as compiled in the SubRouterProcessorChain constructor:
the path must start with the mount path followed by a slash or its end; the
returned match is the consumed prefix of the path (including one trailing
slash when the path ends right after it). -/
def looseExec (pat : List Char) (path : List Char) : Option (List Char) :=
  let n := pat.length
  if lowerChars (path.take n) == lowerChars pat then
    if path.length == n then some (path.take n)
    else
      match path.drop n with
      | ['/'] => some (path.take (n + 1))
      | '/' :: _ => some (path.take n)
      | _ => none
  else none

def looseTest (pat path : List Char) : Bool := (looseExec pat path).isSome

/-- The replace of one trailing slash applied to the matched prefix before it
becomes the baseURL of the sub-request. -/
def trimTrailingSlash (cs : List Char) : List Char :=
  if cs.getLast? == some '/' then cs.dropLast else cs

/-! ## Handlers and the dispatch loop

Handlers are embedded as finite scripts: a list of primitive effects (send a
status through the response, assign the request url) followed by one terminal
action — call next (with a value), return without calling next, or throw.
This is the class of synchronous handlers that call their continuation at most
once, in tail position; for it, the continuation-passing dispatch of the
source is equivalent to the direct-style recursion below.  A handler returning
a promise is modelled separately for the wrapping property (claim C4).  The
isErrorHandler flag plays the role of the arity-4 classification of
wrapRequestProcessor; the wrapper behavior itself is execWrapped. -/

inductive PreAct where
  | sendStatus (code : Nat)
  | setReqUrl (u : List Char)
  deriving DecidableEq, Repr

inductive HTail where
  | callNext (e : JSVal)
  | halt
  | throwErr (e : JSVal)
  deriving DecidableEq, Repr

structure RawHandler where
  pre : List PreAct
  tail : HTail
  deriving DecidableEq, Repr

structure Wrapped where
  isErrorHandler : Bool
  raw : RawHandler
  deriving DecidableEq, Repr

/-- State carried through one dispatch: the request chain (current request
first), the request method, and the response. -/
structure DispatchState where
  req : List ReqNode
  method : String
  resp : RespState
  deriving DecidableEq, Repr

def curReq (s : DispatchState) : ReqNode :=
  s.req.headD { url := [], path := [], baseUrl := [], originalUrl := [], query := [], params := [] }

def applyPre (s : DispatchState) : PreAct → DispatchState
  | .sendStatus code => { s with resp := respSendStatus code s.resp }
  | .setReqUrl u => { s with req := setUrl u s.req }

/-- Outcome of one wrapped-handler invocation: it called its continuation with
a value, returned without calling it, or threw synchronously. -/
inductive ExecOut where
  | nextCall (e : JSVal)
  | halted
  | threw (e : JSVal)
  deriving DecidableEq, Repr

def execRaw (h : RawHandler) (s : DispatchState) : ExecOut × DispatchState :=
  let s1 := h.pre.foldl applyPre s
  match h.tail with
  | .callNext e => (.nextCall e, s1)
  | .halt => (.halted, s1)
  | .throwErr e => (.threw e, s1)

/-- wrapRequestProcessor, for the synchronous handler scripts: an error
handler runs only when an error is in flight and otherwise forwards with no
argument; a non-error handler forwards an in-flight error unchanged and
otherwise runs. -/
def execWrapped (w : Wrapped) (err : JSVal) (s : DispatchState) : ExecOut × DispatchState :=
  if w.isErrorHandler then
    if err.truthy then execRaw w.raw s else (.nextCall .undef, s)
  else
    if err.truthy then (.nextCall err, s) else execRaw w.raw s

/-- Outcome of running a chain (or a whole router): the completion
continuation was called with a value, control stopped inside a handler that
neither sent the error on nor returned (done never called), or an exception
escaped synchronously. -/
inductive COut where
  | done (e : JSVal)
  | halted
  | thrown (e : JSVal)
  deriving DecidableEq, Repr

/-- The reduce of ProcessorChain.run: each wrapper first short-circuits to
done (with no argument) on the route sentinel, then invokes its processor
inside a try that feeds a synchronous throw into the continuation; the
continuation of the last processor is done itself, so done receives whatever
the last processor passes on (including the sentinel). -/
def runProcs : List Wrapped → JSVal → DispatchState → COut × DispatchState
  | [], err, s => (.done err, s)
  | w :: rest, err, s =>
    if err == routeSentinel then (.done .undef, s)
    else
      match execWrapped w err s with
      | (.nextCall e, s1) => runProcs rest e s1
      | (.threw e, s1) => runProcs rest e s1
      | (.halted, s1) => (.halted, s1)

/-- The three chain kinds a router registers: a MatchAllRequestsProcessorChain
(from use), a RouteMatchingProcessorChain (from mount, carrying the method,
the pattern and the case-sensitivity compiled at registration), and a
SubRouterProcessorChain (from addSubRouter, carrying the nested chain list by
value). -/
inductive Chain where
  | matchAll (procs : List Wrapped)
  | route (method : Option String) (pat : List Seg) (sensitive : Bool) (procs : List Wrapped)
  | sub (pat : List Char) (chains : List Chain)

/-- The matches predicate of each chain kind, evaluated against the current
request state: always true for middleware chains; method (when bound) plus
compiled pattern against the current path for route chains; loose prefix
match for sub-router chains. -/
def chainMatches (c : Chain) (s : DispatchState) : Bool :=
  match c with
  | .matchAll _ => true
  | .route m pat sens _ =>
    (match m with
     | some mm => s.method == mm
     | none => true)
      && patternTest sens pat (curReq s).path
  | .sub pat _ => looseTest pat (curReq s).path

mutual

/-- Run of one chain.  A route chain first builds its sub-request: parameter
extraction happens in makeSubRequest, outside any try, so a decode failure
escapes the run as a synchronous exception (thrown) without the completion
continuation being called.  A sub-router chain re-executes its matcher, throws
on the (unreachable when its predicate held) mismatch, derives the sub-request
from the trimmed matched prefix and delegates to the nested dispatch; the
derived request node is popped when control returns.  A middleware chain runs
its processor directly on the request. -/
def runChain : Chain → JSVal → DispatchState → COut × DispatchState
  | Chain.matchAll procs, err, s => runProcs procs err s
  | Chain.route _ pat sens procs, err, s =>
    (match makeParams sens pat (curReq s).path with
     | .error e => (.thrown e, s)
     | .ok params =>
       let s1 := { s with req := makeSubRequest s.req [] params }
       match runProcs procs err s1 with
       | (out, s2) => (out, { s2 with req := s2.req.tail }))
  | Chain.sub pat chains, err, s =>
    (match looseExec pat (curReq s).path with
     | none => (.thrown (JSVal.err "This subrouter does not match URL" none), s)
     | some m =>
       let baseURL := trimTrailingSlash m
       let s1 := { s with req := makeSubRequest s.req baseURL [] }
       match runRouterCore chains err s1 with
       | (out, s2) => (out, { s2 with req := s2.req.tail }))

/-- Router.handle: the cursor walks the processor list in order; the chain at
the cursor has its predicate evaluated against the current request state; on
match the chain runs and its continuation re-enters the loop at the next
cursor position with the resulting error and state; exhausting the list calls
the outer continuation with the error in flight. -/
def runRouterCore : List Chain → JSVal → DispatchState → COut × DispatchState
  | [], err, s => (.done err, s)
  | c :: rest, err, s =>
    if chainMatches c s then
      match runChain c err s with
      | (.done e, s1) => runRouterCore rest e s1
      | (.halted, s1) => (.halted, s1)
      | (.thrown e, s1) => (.thrown e, s1)
    else runRouterCore rest err s

end

/-- Instrumented variant of runRouterCore that also returns the consultation
trace: one entry per cursor position reached, holding the chain, the error in
flight and the state at the moment its predicate is evaluated. -/
def runRouterT : List Chain → JSVal → DispatchState →
    (COut × DispatchState) × List (Chain × JSVal × DispatchState)
  | [], err, s => ((.done err, s), [])
  | c :: rest, err, s =>
    if chainMatches c s then
      match runChain c err s with
      | (.done e, s1) =>
        let r := runRouterT rest e s1
        (r.1, (c, err, s) :: r.2)
      | (.halted, s1) => ((.halted, s1), [(c, err, s)])
      | (.thrown e, s1) => ((.thrown e, s1), [(c, err, s)])
    else
      let r := runRouterT rest err s
      (r.1, (c, err, s) :: r.2)

/-- Application.run: dispatch with no error in flight; the handler of last
resort behind the top-level router sends 500 when an error is in flight and
404 otherwise (unconditionally — it never checks whether a response was
already sent).  An exception escaping the dispatch escapes run itself. -/
def applicationRun (chains : List Chain) (s : DispatchState) : COut × DispatchState :=
  match runRouterCore chains .undef s with
  | (.done e, s1) =>
    (.done e, { s1 with resp := respSendStatus (if e.truthy then 500 else 404) s1.resp })
  | other => other

/-- Relation between consecutive entries of the consultation trace: when the
earlier chain matched, the next cursor position is reached with exactly the
error and state its run produced (so the next predicate sees every mutation);
when it did not match, error and state pass through unchanged. -/
def stepRel (x y : Chain × JSVal × DispatchState) : Prop :=
  if chainMatches x.1 x.2.2 then
    (runChain x.1 x.2.1 x.2.2).1 = COut.done y.2.1
      ∧ (runChain x.1 x.2.1 x.2.2).2 = y.2.2
  else y.2.1 = x.2.1 ∧ y.2.2 = x.2.2

/-- Number of response-sending effects in a handler script. -/
def sendCount (h : RawHandler) : Nat :=
  h.pre.countP (fun a => match a with | PreAct.sendStatus _ => true | _ => false)

/-- Discipline on handler scripts under which the completion callback fires
exactly once per invocation: a handler either never sends and finishes by
calling next or throwing, or sends exactly once and then stops (neither
calling next nor throwing). -/
def disciplinedRaw (h : RawHandler) : Prop :=
  (sendCount h = 0 ∧ h.tail ≠ HTail.halt) ∨ (sendCount h = 1 ∧ h.tail = HTail.halt)

/-- A chain all of whose handlers (recursively, through sub-routers) are
disciplined. -/
inductive GoodChain : Chain → Prop where
  | matchAll : ∀ ps, (∀ w ∈ ps, disciplinedRaw w.raw) → GoodChain (Chain.matchAll ps)
  | route : ∀ m pat sens ps, (∀ w ∈ ps, disciplinedRaw w.raw) →
      GoodChain (Chain.route m pat sens ps)
  | sub : ∀ pat cs, (∀ c ∈ cs, GoodChain c) → GoodChain (Chain.sub pat cs)

/-- Callback-count bookkeeping of one dispatch step: completion through done
leaves the count unchanged, stopping inside a sending handler raises it by
exactly one (an escaping exception is unconstrained). -/
def CbBound (s s1 : DispatchState) (out : COut) : Prop :=
  (∀ e, out = COut.done e → s1.resp.cbCalls.length = s.resp.cbCalls.length)
  ∧ (out = COut.halted → s1.resp.cbCalls.length = s.resp.cbCalls.length + 1)

/-! ## Registration surface (Router.use / mount / addSubRouter, Application) -/

structure RouterM where
  caseSensitive : Bool := false
  processors : List Chain := []

/-- Router.use: push one MatchAllRequestsProcessorChain per wrapped
processor. -/
def routerUse (r : RouterM) (ps : List Wrapped) : RouterM :=
  { r with processors := r.processors ++ ps.map (fun w => Chain.matchAll [w]) }

/-- Router.mount: push one RouteMatchingProcessorChain over the wrapped
processors, compiled with the case-sensitivity the router has at this
moment. -/
def routerMount (r : RouterM) (method : Option String) (path : List Char)
    (ps : List Wrapped) : RouterM :=
  { r with processors :=
      r.processors ++ [Chain.route method (parsePattern path) r.caseSensitive ps] }

/-- Router.addSubRouter: push one SubRouterProcessorChain holding the nested
router dispatch (its chain list, captured here by value). -/
def routerAddSub (r : RouterM) (path : List Char) (sub : RouterM) : RouterM :=
  { r with processors := r.processors ++ [Chain.sub path sub.processors] }

/-- One registration call on a router. -/
inductive RegOp where
  | use (ps : List Wrapped)
  | mount (method : Option String) (path : List Char) (ps : List Wrapped)
  | addSubRouter (path : List Char) (sub : RouterM)

def applyOp (r : RouterM) : RegOp → RouterM
  | .use ps => routerUse r ps
  | .mount m p ps => routerMount r m p ps
  | .addSubRouter p sub => routerAddSub r p sub

def applyOps (r : RouterM) (ops : List RegOp) : RouterM := ops.foldl applyOp r

/-- The chains one registration call appends, given the case-sensitivity in
effect. -/
def opChains (cs : Bool) : RegOp → List Chain
  | .use ps => ps.map (fun w => Chain.matchAll [w])
  | .mount m p ps => [Chain.route m (parsePattern p) cs ps]
  | .addSubRouter p sub => [Chain.sub p sub.processors]

/-- Application: the settings store over the router it extends.  setSetting
stores the value and, for the name "case sensitive routing", updates the
router option used by future mounts; existing chains keep the sensitivity
compiled into them. -/
structure AppM where
  settings : List (String × JSVal) := []
  router : RouterM := {}

def setSetting (a : AppM) (name : String) (v : JSVal) : AppM :=
  { settings := setKey a.settings name v
    router :=
      if name == "case sensitive routing" then
        { a.router with caseSensitive := v.truthy }
      else a.router }

/-! ## Handler wrapping with deferred results (claim C4) -/

/-- Observable synchronous result of invoking a raw handler for the wrapping
property: it returned a plain (non-promise) value, returned a promise that
either resolves or rejects with a value, or threw synchronously. -/
inductive RawResult where
  | retPlain
  | retPromise (rejection : Option JSVal)
  | throwSync (e : JSVal)
  deriving DecidableEq, Repr

/-- The substitute error built by the wrapper when a rejection carries no
(truthy) value. -/
def genericRejectionError : JSVal := .err "Rejected promise" none

/-- Sync outcome of the wrapper produced by wrapRequestProcessor (the
promise-aware revision): what it passes to next (also from the rejection
handler it attaches to a returned promise), or that control returns with no
call, or a synchronously escaping exception; pairs with whether the original
handler was invoked. -/
inductive WrapOut where
  | nextCall (e : JSVal)
  | noCall
  | escape (e : JSVal)
  deriving DecidableEq, Repr

def wrappedCall (isErrH : Bool) (raw : JSVal → RawResult) (err : JSVal) :
    WrapOut × Bool :=
  if isErrH then
    if err.truthy then
      match raw err with
      | .retPlain => (.noCall, true)
      | .retPromise none => (.noCall, true)
      | .retPromise (some v) =>
        (.nextCall (if v.truthy then v else genericRejectionError), true)
      | .throwSync e => (.escape e, true)
    else (.nextCall .undef, false)
  else
    if err.truthy then (.nextCall err, false)
    else
      match raw err with
      | .retPlain => (.noCall, true)
      | .retPromise none => (.noCall, true)
      | .retPromise (some v) =>
        (.nextCall (if v.truthy then v else genericRejectionError), true)
      | .throwSync e => (.escape e, true)

/-- What one wrapped handler does to its continuation at the chain boundary of
ProcessorChain.run: done on the route sentinel, otherwise the wrapper runs
inside the try whose catch feeds a synchronous throw into next. -/
inductive BoundaryOut where
  | callsDone
  | next (e : JSVal)
  | noCall
  deriving DecidableEq, Repr

def boundaryStep (isErrH : Bool) (raw : JSVal → RawResult) (err : JSVal) :
    BoundaryOut × Bool :=
  if err == routeSentinel then (.callsDone, false)
  else
    match wrappedCall isErrH raw err with
    | (.escape e, inv) => (.next e, inv)
    | (.nextCall e, inv) => (.next e, inv)
    | (.noCall, inv) => (.noCall, inv)

/-- Reference step definition taken from the words of claim C4: a non-error
handler given a truthy error forwards it without running; an error handler
given no error forwards with no argument without running; otherwise the
handler runs, a synchronous throw or the rejection value of a returned promise
is fed to next (substituting the generic error for a value-free rejection),
and nothing escapes. -/
def refStep (isErrH : Bool) (raw : JSVal → RawResult) (err : JSVal) :
    BoundaryOut × Bool :=
  if !isErrH && err.truthy then (.next err, false)
  else if isErrH && !err.truthy then (.next .undef, false)
  else
    match raw err with
    | .throwSync e => (.next e, true)
    | .retPromise (some v) =>
      (.next (if v.truthy then v else genericRejectionError), true)
    | .retPromise none => (.noCall, true)
    | .retPlain => (.noCall, true)

/-! ## Concrete dispatch fixtures (claims C1, C2, C3, C4, C9) -/

/-- Top-level request as built by the Request constructor from an event with
the given path and an empty raw query string (the url is the path, a question
mark, and the raw query). -/
def mkTopRequest (path : List Char) : List ReqNode :=
  [{ url := path ++ ['?']
     path := beforeQuery (path ++ ['?'])
     baseUrl := []
     originalUrl := path ++ ['?']
     query := []
     params := [] }]

def mkState (path : List Char) : DispatchState :=
  { req := mkTopRequest path, method := "GET", resp := { isALB := false } }

/-- C1 counterexample fixture: one middleware that sends a 200 response and
then calls next, exhausting the chain list. -/
def c1SendThenNext : Wrapped :=
  { isErrorHandler := false
    raw := { pre := [.sendStatus 200], tail := .callNext .undef } }

def c1Chains : List Chain := [Chain.matchAll [c1SendThenNext]]

def c1State : DispatchState := mkState "/hello".toList

/-- C1 amended-claim witness fixture: one middleware that sends a 200 response
and stops. -/
def c1GoodChains : List Chain :=
  [Chain.matchAll [{ isErrorHandler := false
                     raw := { pre := [.sendStatus 200], tail := .halt } }]]

/-- C2 scenario fixtures: a middleware that rewrites the url to /goodbye and
calls next, followed by a route on /goodbye; and the same with a middleware
that leaves the url alone. -/
def c2Mut : Wrapped :=
  { isErrorHandler := false
    raw := { pre := [.setReqUrl "/goodbye".toList], tail := .callNext .undef } }

def c2Stay : Wrapped :=
  { isErrorHandler := false
    raw := { pre := [], tail := .callNext .undef } }

def c2Sender : Wrapped :=
  { isErrorHandler := false
    raw := { pre := [.sendStatus 200], tail := .halt } }

def c2Route : Chain :=
  Chain.route (some "GET") (parsePattern "/goodbye".toList) false [c2Sender]

def c2Chains : List Chain := [Chain.matchAll [c2Mut], c2Route]

def c2ChainsStay : List Chain := [Chain.matchAll [c2Stay], c2Route]

def c2State : DispatchState := mkState "/hello".toList

/-- C3 fixture: the route /hello/:name matched by the path /hello/%EA whose
captured parameter is malformed percent-encoding (a bare multi-byte lead
byte), exactly the failing input of the repository test suite. -/
def c3Pattern : List Seg := parsePattern "/hello/:name".toList

def c3Chain : Chain := Chain.route none c3Pattern false []

def c3State : DispatchState := mkState "/hello/%EA".toList

/-- C4 witness fixture: a non-error handler whose returned promise rejects
with an empty (falsy) value. -/
def c4RejectingRaw : JSVal → RawResult := fun _ => RawResult.retPromise (some (.str ""))

/-- C9 scenario: enable case-sensitive routing, mount GET /Foo, disable
case-sensitive routing, mount GET /Foo again. -/
def c9Handler : Wrapped :=
  { isErrorHandler := false, raw := { pre := [], tail := .callNext .undef } }

def c9App : AppM :=
  let a1 := setSetting {} "case sensitive routing" (.bool true)
  let a2 := { a1 with router := routerMount a1.router (some "GET") "/Foo".toList [c9Handler] }
  let a3 := setSetting a2 "case sensitive routing" (.bool false)
  { a3 with router := routerMount a3.router (some "GET") "/Foo".toList [c9Handler] }

end LambdaExpress

namespace LambdaExpress

/-! ## Theorems about the request model (claims C5 and C6) -/

theorem setUrl_nil (u : List Char) : setUrl u [] = [] := rfl

theorem setUrl_single (u : List Char) (r : ReqNode) :
    setUrl u [r] = [{ r with url := u, path := beforeQuery u }] := rfl

theorem setUrl_cons_cons (u : List Char) (r p : ReqNode) (rest : List ReqNode) :
    setUrl u (r :: p :: rest)
      = { r with url := u, path := beforeQuery u }
        :: setUrl (substringTo p.url ((p.url.length : Int) - (r.url.length : Int)) ++ u)
             (p :: rest) := rfl

theorem setUrl_map_query (u : List Char) (rs : List ReqNode) :
    (setUrl u rs).map ReqNode.query = rs.map ReqNode.query := by
  induction rs generalizing u with
  | nil => rfl
  | cons r parents ih =>
    cases parents with
    | nil => simp [setUrl_single]
    | cons p rest =>
      rw [setUrl_cons_cons]
      simp only [List.map_cons]
      rw [ih]
      simp

theorem setUrl_map_originalUrl (u : List Char) (rs : List ReqNode) :
    (setUrl u rs).map ReqNode.originalUrl = rs.map ReqNode.originalUrl := by
  induction rs generalizing u with
  | nil => rfl
  | cons r parents ih =>
    cases parents with
    | nil => simp [setUrl_single]
    | cons p rest =>
      rw [setUrl_cons_cons]
      simp only [List.map_cons]
      rw [ih]
      simp

theorem substringTo_prefix (pre suf : List Char) :
    substringTo (pre ++ suf) (((pre ++ suf).length : Int) - (suf.length : Int)) = pre := by
  have h : (((pre ++ suf).length : Int) - (suf.length : Int)).toNat = pre.length := by
    simp [List.length_append]
  rw [substringTo, h]
  exact List.take_left pre suf

/-- C5.  Assigning a url to a (sub-)request whose ancestor chain satisfies the
suffix invariant (a) never changes originalUrl at any depth, (b) preserves the
invariant that every ancestor url is its own prefix followed by the descendant
url, (c) sets the url of the assigned request itself to the assigned value, and
(d) rewrites each ancestor url to exactly that ancestor's own old prefix
followed by the new url of its child. -/
theorem c5_setUrl_suffix_invariant (rs : List ReqNode) (u : List Char)
    (hinv : urlSuffixInv rs) :
    (setUrl u rs).map ReqNode.originalUrl = rs.map ReqNode.originalUrl
    ∧ urlSuffixInv (setUrl u rs)
    ∧ (∀ r rest, rs = r :: rest →
        (setUrl u rs).head? = some { r with url := u, path := beforeQuery u })
    ∧ List.Chain'
        (fun x y => ∀ pre, y.1.url = pre ++ x.1.url → y.2.url = pre ++ x.2.url)
        (rs.zip (setUrl u rs)) := by
  induction rs generalizing u with
  | nil =>
    refine ⟨rfl, ?_, ?_, ?_⟩
    · simp [setUrl_nil, urlSuffixInv]
    · intro r rest h; cases h
    · simp [setUrl_nil]
  | cons r parents ih =>
    cases parents with
    | nil =>
      refine ⟨?_, ?_, ?_, ?_⟩
      · simp [setUrl_single]
      · simp [setUrl_single, urlSuffixInv]
      · intro a rest h
        injection h with h1 h2
        subst h1; subst h2
        simp [setUrl_single]
      · simp [setUrl_single]
    | cons p rest =>
      have hinvTail : urlSuffixInv (p :: rest) := (List.chain'_cons.mp hinv).2
      have hsuf : r.url <:+ p.url := (List.chain'_cons.mp hinv).1
      obtain ⟨pre0, hpre0⟩ := hsuf
      have hsub : substringTo p.url ((p.url.length : Int) - (r.url.length : Int)) = pre0 := by
        rw [← hpre0]
        exact substringTo_prefix pre0 r.url
      have ihx := ih (pre0 ++ u) hinvTail
      obtain ⟨ihOrig, ihInv, ihHead, ihChain⟩ := ihx
      have hheadP : (setUrl (pre0 ++ u) (p :: rest)).head?
          = some { p with url := pre0 ++ u, path := beforeQuery (pre0 ++ u) } :=
        ihHead p rest rfl
      refine ⟨?_, ?_, ?_, ?_⟩
      · rw [setUrl_cons_cons]
        simp only [List.map_cons]
        rw [hsub, ihOrig]
        simp
      · rw [setUrl_cons_cons, hsub, urlSuffixInv]
        cases hset : setUrl (pre0 ++ u) (p :: rest) with
        | nil => simp
        | cons q qs =>
          rw [hset] at hheadP
          have hq : q = { p with url := pre0 ++ u, path := beforeQuery (pre0 ++ u) } := by
            simpa using hheadP
          rw [List.chain'_cons]
          constructor
          · rw [hq]
            exact ⟨pre0, rfl⟩
          · have := ihInv
            rw [urlSuffixInv, hset] at this
            exact this
      · intro a rest2 h
        injection h with h1 h2
        subst h1; subst h2
        rw [setUrl_cons_cons]
        rfl
      · rw [setUrl_cons_cons, hsub]
        cases hset : setUrl (pre0 ++ u) (p :: rest) with
        | nil =>
          have : (setUrl (pre0 ++ u) (p :: rest)).head? = none := by rw [hset]; rfl
          rw [hheadP] at this
          cases this
        | cons q qs =>
          rw [hset] at hheadP
          have hq : q = { p with url := pre0 ++ u, path := beforeQuery (pre0 ++ u) } := by
            simpa using hheadP
          simp only [List.zip_cons_cons, List.chain'_cons]
          constructor
          · intro pre hpre
            have hpre' : pre ++ r.url = pre0 ++ r.url := by
              rw [← hpre, hpre0]
            have hpp : pre = pre0 := by
              exact List.append_cancel_right hpre'
            subst hpp
            rw [hq]
          · have := ihChain
            rw [hset] at this
            exact this

theorem c5_setUrl_suffix_invariant_witness :
    urlSuffixInv [c5ChildNode, c5ParentNode]
    ∧ ((setUrl "/profile?me=true".toList [c5ChildNode, c5ParentNode]).map ReqNode.originalUrl
        = [c5ChildNode, c5ParentNode].map ReqNode.originalUrl
      ∧ urlSuffixInv (setUrl "/profile?me=true".toList [c5ChildNode, c5ParentNode])
      ∧ (∀ r rest, [c5ChildNode, c5ParentNode] = r :: rest →
          (setUrl "/profile?me=true".toList [c5ChildNode, c5ParentNode]).head?
            = some { r with url := "/profile?me=true".toList
                            path := beforeQuery "/profile?me=true".toList })
      ∧ List.Chain'
          (fun x y => ∀ pre, y.1.url = pre ++ x.1.url → y.2.url = pre ++ x.2.url)
          ([c5ChildNode, c5ParentNode].zip
            (setUrl "/profile?me=true".toList [c5ChildNode, c5ParentNode]))) := by
  have hinv : urlSuffixInv [c5ChildNode, c5ParentNode] :=
    List.chain'_cons.mpr ⟨⟨"/admin".toList, by decide⟩, List.chain'_singleton _⟩
  exact ⟨hinv, c5_setUrl_suffix_invariant [c5ChildNode, c5ParentNode] "/profile?me=true".toList hinv⟩

/-- C6.  Assigning a url to a request recomputes its path as the part of the
new url before any question mark and leaves the previously parsed query of
every request in the chain exactly as it was (the new url's query string is
never re-parsed); the url itself takes the assigned value. -/
theorem c6_setUrl_path_query_frame (r : ReqNode) (rest : List ReqNode) (u : List Char) :
    ((setUrl u (r :: rest)).headD r).path = u.takeWhile (fun c => c != '?')
    ∧ ((setUrl u (r :: rest)).headD r).url = u
    ∧ (setUrl u (r :: rest)).map ReqNode.query = (r :: rest).map ReqNode.query := by
  refine ⟨?_, ?_, setUrl_map_query u (r :: rest)⟩
  · cases rest with
    | nil => simp [setUrl_single, beforeQuery]
    | cons p rs => rw [setUrl_cons_cons]; simp [beforeQuery]
  · cases rest with
    | nil => simp [setUrl_single]
    | cons p rs => rw [setUrl_cons_cons]; simp

end LambdaExpress

namespace LambdaExpress

/-! ## Theorems about the response model (claims C7 and C8) -/

/-- C7.  Response.end invokes the Lambda callback with exactly one output
object: for every response state it carries isBase64Encoded false, the status
code last set, the multi-valued header map and the body; for a
gateway-sourced request neither statusDescription nor the single-valued headers
map is present, while for a load-balancer-sourced request statusDescription is
the status code followed by its reason phrase (the stringified code for codes
outside the table) and the single-valued headers map sends each header name to
the last value appended for that name. -/
theorem c7_end_serialization (r : RespState) (code : Nat) :
    ∃ out : ResponseResult,
      (respEnd (respStatus code r)).cbCalls = r.cbCalls ++ [out]
      ∧ out.isBase64Encoded = false
      ∧ out.statusCode = code
      ∧ out.multiValueHeaders = r.headers
      ∧ out.body = r.body
      ∧ (r.isALB = false → out.statusDescription = none ∧ out.headers = none)
      ∧ (r.isALB = true →
          out.statusDescription
            = some (toString code ++ " " ++ (statusCodes code).getD (toString code))
          ∧ out.headers = some (r.headers.map (fun p => (p.1, p.2.getLast?)))
          ∧ ∀ k vs v, (k, vs) ∈ r.headers → vs.getLast? = some v →
              ∃ m, out.headers = some m ∧ (k, some v) ∈ m) := by
  refine ⟨_, rfl, rfl, rfl, rfl, rfl, ?_, ?_⟩
  · intro h
    simp [respStatus, h]
  · intro h
    refine ⟨by simp [respStatus, h], by simp [respStatus, h], ?_⟩
    intro k vs v hmem hlast
    refine ⟨r.headers.map (fun p => (p.1, p.2.getLast?)), by simp [respStatus, h], ?_⟩
    have : (k, some v) = (fun (p : String × List String) => (p.1, p.2.getLast?)) (k, vs) := by
      simp [hlast]
    rw [this]
    exact List.mem_map_of_mem _ hmem

/-- C7 witness: the theorem applied to a concrete ALB-sourced response carrying
a header with two appended values and the status code 404; the hypotheses are
discharged by evaluation. -/
theorem c7_end_serialization_witness :
    ∃ out : ResponseResult,
      (respEnd (respStatus 404 c7AlbState)).cbCalls = c7AlbState.cbCalls ++ [out]
      ∧ out.isBase64Encoded = false
      ∧ out.statusCode = 404
      ∧ out.multiValueHeaders = c7AlbState.headers
      ∧ out.body = c7AlbState.body
      ∧ (c7AlbState.isALB = false → out.statusDescription = none ∧ out.headers = none)
      ∧ (c7AlbState.isALB = true →
          out.statusDescription
            = some (toString 404 ++ " " ++ (statusCodes 404).getD (toString 404))
          ∧ out.headers = some (c7AlbState.headers.map (fun p => (p.1, p.2.getLast?)))
          ∧ ∀ k vs v, (k, vs) ∈ c7AlbState.headers → vs.getLast? = some v →
              ∃ m, out.headers = some m ∧ (k, some v) ∈ m) :=
  c7_end_serialization c7AlbState 404

/-- C8 counterexample: the claim says that after headers are sent every
header-mutating operation, including delete, throws and leaves the stored
headers unchanged; but on a concrete sent response holding the header X-Test,
Response.delete (which has no headersSent guard in the source) succeeds and
removes the header. -/
theorem c8_counterexample :
    c8SentState.headersSent = true
    ∧ c8SentState.headers = [("X-Test", ["1"])]
    ∧ (respDelete c8SentState "X-Test").headers = []
    ∧ (respDelete c8SentState "X-Test").headers ≠ c8SentState.headers := by
  refine ⟨rfl, rfl, ?_, ?_⟩ <;> decide

/-- C8 amended.  Once headersSent is true, Response.set and Response.append
fail by throwing exactly the error with message
"Can(apostrophe)t set headers after they are sent." (raised before any
mutation, so the stored headers are untouched), while Response.delete is not
guarded: it succeeds and removes the named header entry. -/
theorem c8_header_mutation_after_send (r : RespState) (k v : String) (vs : List String)
    (h : r.headersSent = true) :
    respSet r k v = .error headersSentError
    ∧ respAppend r k vs = .error headersSentError
    ∧ headersSentError = JSVal.err "Can\x27t set headers after they are sent." none
    ∧ respDelete r k = { r with headers := r.headers.filter (fun p => p.1 != k) } := by
  refine ⟨?_, ?_, rfl, rfl⟩
  · simp [respSet, h]
  · simp [respAppend, h]

/-- C8 witness: the amended theorem applied to the concrete sent response. -/
theorem c8_header_mutation_after_send_witness :
    respSet c8SentState "X-More" "2" = .error headersSentError
    ∧ respAppend c8SentState "X-More" ["2"] = .error headersSentError
    ∧ headersSentError = JSVal.err "Can\x27t set headers after they are sent." none
    ∧ respDelete c8SentState "X-More"
        = { c8SentState with headers := c8SentState.headers.filter (fun p => p.1 != "X-More") } :=
  c8_header_mutation_after_send c8SentState "X-More" "2" ["2"] rfl

end LambdaExpress

namespace LambdaExpress

/-! ## Theorems about header parsing and lookup (claim C10) -/

theorem lookup_map_setVal {α : Type} (m : List (String × α)) (k q : String) (v : α)
    (hqk : (q == k) = false) :
    (m.map (fun p => if p.1 == k then (p.1, v) else p)).lookup q = m.lookup q := by
  induction m with
  | nil => rfl
  | cons p rest ih =>
    cases hp : (p.1 == k) with
    | true =>
      have hqp : (q == p.1) = false := by
        rw [beq_iff_eq.mp hp]; exact hqk
      simp only [List.map_cons]
      rw [if_pos hp]
      simp only [List.lookup, hqp, ih]
    | false =>
      simp only [List.map_cons]
      rw [if_neg (by rw [hp]; exact Bool.false_ne_true)]
      cases hqp : (q == p.1) with
      | true => simp only [List.lookup, hqp]
      | false => simp only [List.lookup, hqp, ih]

theorem lookup_map_setVal_hit {α : Type} (m : List (String × α)) (k : String) (v : α)
    (h : m.any (fun p => p.1 == k) = true) :
    (m.map (fun p => if p.1 == k then (p.1, v) else p)).lookup k = some v := by
  induction m with
  | nil => simp at h
  | cons p rest ih =>
    cases hp : (p.1 == k) with
    | true =>
      have hk : (k == p.1) = true := by
        rw [beq_iff_eq.mp hp]; exact beq_self_eq_true k
      simp only [List.map_cons]
      rw [if_pos hp]
      simp only [List.lookup, hk]
    | false =>
      have h' : rest.any (fun p => p.1 == k) = true := by
        simpa [List.any_cons, hp] using h
      have hk : (k == p.1) = false := by
        cases hx : (k == p.1) with
        | false => rfl
        | true => rw [beq_iff_eq.mp hx, beq_self_eq_true] at hp; cases hp
      simp only [List.map_cons]
      rw [if_neg (by rw [hp]; exact Bool.false_ne_true)]
      simp only [List.lookup, hk, ih h']

theorem lookup_append_new {α : Type} (m : List (String × α)) (k q : String) (v : α)
    (h : m.any (fun p => p.1 == k) = false) :
    (m ++ [(k, v)]).lookup q = if q == k then some v else m.lookup q := by
  induction m with
  | nil =>
    cases hqk : (q == k) with
    | true =>
      rw [List.nil_append, if_pos rfl]
      simp only [List.lookup, hqk]
    | false =>
      rw [List.nil_append, if_neg Bool.false_ne_true]
      simp only [List.lookup, hqk]
  | cons p rest ih =>
    have hp : (p.1 == k) = false := by
      cases hx : (p.1 == k) with
      | false => rfl
      | true => simp [List.any_cons, hx] at h
    have h' : rest.any (fun p => p.1 == k) = false := by
      simpa [List.any_cons, hp] using h
    cases hqp : (q == p.1) with
    | true =>
      have hqk : (q == k) = false := by
        cases hx : (q == k) with
        | false => rfl
        | true =>
          rw [beq_iff_eq.mp hqp] at hx
          rw [hx] at hp
          cases hp
      rw [if_neg (by rw [hqk]; exact Bool.false_ne_true)]
      simp only [List.cons_append, List.lookup, hqp]
    | false =>
      simp only [List.cons_append, List.append_eq, List.lookup, hqp, ih h']

/-- Lookup after a JS object assignment: the assigned key now maps to the new
value and every other key is unchanged. -/
theorem lookup_setKey {α : Type} (m : List (String × α)) (k q : String) (v : α) :
    (setKey m k v).lookup q = if q == k then some v else m.lookup q := by
  unfold setKey
  cases h : m.any (fun p => p.1 == k) with
  | true =>
    rw [if_pos rfl]
    cases hq : (q == k) with
    | true =>
      rw [if_pos rfl, beq_iff_eq.mp hq]
      exact lookup_map_setVal_hit m k v h
    | false =>
      rw [if_neg Bool.false_ne_true]
      exact lookup_map_setVal m k q v hq
  | false =>
    rw [if_neg Bool.false_ne_true, lookup_append_new m k q v h]

theorem getLast?_cons_or {α : Type} (a : α) (l : List α) :
    (a :: l).getLast? = (l.getLast?).or (some a) := by
  induction l generalizing a with
  | nil => rfl
  | cons b t ih =>
    rw [List.getLast?_cons_cons, ih b]
    cases ht : t.getLast? with
    | none => simp
    | some x => simp

theorem getHeaderKey_ne_referrer (n : String) : (getHeaderKey n == "referrer") = false := by
  unfold getHeaderKey
  cases h : (jsToLower n == "referrer") with
  | true =>
    rw [if_pos rfl]
    decide
  | false =>
    rw [if_neg Bool.false_ne_true]
    exact h

theorem beq_symm_eq {k : Type} [BEq k] [LawfulBEq k] (a b : k) : (a == b) = (b == a) := by
  by_cases h : a = b
  · subst h; rfl
  · rw [beq_eq_false_iff_ne.mpr h, beq_eq_false_iff_ne.mpr (fun hh => h hh.symm)]

theorem parseHeaderEntry_lookup (acc : List (String × List String)) (k q : String)
    (v : List String) (hq : (q == "referrer") = false) :
    (parseHeaderEntry acc (k, some v)).lookup q
      = if getHeaderKey k == q then some v else acc.lookup q := by
  cases h1 : (jsToLower k == "referer") with
  | true =>
    have href : (jsToLower k == "referrer") = false := by
      rw [beq_iff_eq.mp h1]; decide
    have hgk : getHeaderKey k = jsToLower k := by
      unfold getHeaderKey
      rw [if_neg (by rw [href]; exact Bool.false_ne_true)]
    show (if jsToLower k == "referer" then setKey (setKey acc (jsToLower k) v) "referrer" v
          else if jsToLower k == "referrer" then setKey (setKey acc (jsToLower k) v) "referer" v
          else setKey acc (jsToLower k) v).lookup q = _
    rw [if_pos h1, lookup_setKey, lookup_setKey]
    rw [if_neg (by rw [hq]; exact Bool.false_ne_true)]
    rw [hgk, beq_symm_eq q (jsToLower k)]
  | false =>
    cases h2 : (jsToLower k == "referrer") with
    | true =>
      have hgk : getHeaderKey k = "referer" := by
        unfold getHeaderKey
        rw [if_pos h2]
      show (if jsToLower k == "referer" then setKey (setKey acc (jsToLower k) v) "referrer" v
            else if jsToLower k == "referrer" then setKey (setKey acc (jsToLower k) v) "referer" v
            else setKey acc (jsToLower k) v).lookup q = _
      rw [if_neg (by rw [h1]; exact Bool.false_ne_true), if_pos h2]
      rw [lookup_setKey, lookup_setKey, beq_iff_eq.mp h2, hgk]
      cases hqr : (q == "referer") with
      | true =>
        have hrq : ("referer" == q) = true := by
          rw [beq_iff_eq.mp hqr]; exact beq_self_eq_true _
        rw [if_pos rfl, if_pos hrq]
      | false =>
        have hrq : ("referer" == q) = false := by
          rw [beq_symm_eq]; exact hqr
        rw [if_neg Bool.false_ne_true,
            if_neg (by rw [hq]; exact Bool.false_ne_true),
            if_neg (by rw [hrq]; exact Bool.false_ne_true)]
    | false =>
      have hgk : getHeaderKey k = jsToLower k := by
        unfold getHeaderKey
        rw [if_neg (by rw [h2]; exact Bool.false_ne_true)]
      show (if jsToLower k == "referer" then setKey (setKey acc (jsToLower k) v) "referrer" v
            else if jsToLower k == "referrer" then setKey (setKey acc (jsToLower k) v) "referer" v
            else setKey acc (jsToLower k) v).lookup q = _
      rw [if_neg (by rw [h1]; exact Bool.false_ne_true),
          if_neg (by rw [h2]; exact Bool.false_ne_true)]
      rw [lookup_setKey, hgk, beq_symm_eq q (jsToLower k)]

theorem parse_foldl_lookup (hs : List (String × Option (List String)))
    (acc : List (String × List String)) (q : String)
    (hq : (q == "referrer") = false) :
    (hs.foldl parseHeaderEntry acc).lookup q
      = ((relevantValues hs q).getLast?).or (acc.lookup q) := by
  induction hs generalizing acc with
  | nil => simp [relevantValues]
  | cons p rest ih =>
    obtain ⟨k, v?⟩ := p
    cases v? with
    | none =>
      rw [List.foldl_cons, ih]
      have h1 : parseHeaderEntry acc (k, none) = acc := rfl
      have h2 : relevantValues ((k, none) :: rest) q = relevantValues rest q := by
        unfold relevantValues
        rw [List.filterMap_cons]
      rw [h1, h2]
    | some v =>
      rw [List.foldl_cons, ih, parseHeaderEntry_lookup acc k q v hq]
      have hrel : relevantValues ((k, some v) :: rest) q
          = if getHeaderKey k == q then v :: relevantValues rest q
            else relevantValues rest q := by
        cases hk : (getHeaderKey k == q) with
        | true => simp [relevantValues, List.filterMap_cons, hk, beq_iff_eq.mp hk]
        | false => simp [relevantValues, List.filterMap_cons, hk, beq_eq_false_iff_ne.mp hk]
      rw [hrel]
      cases hk : (getHeaderKey k == q) with
      | true =>
        rw [if_pos rfl, if_pos rfl, getLast?_cons_or, Option.or_assoc, Option.or_some]
      | false =>
        rw [if_neg Bool.false_ne_true, if_neg Bool.false_ne_true]

/-- C10.  Request header lookup: (a) reqGet and reqHeaderAll depend on the
requested name only through its lowercase form (case-insensitive lookup);
(b) reqGet is the last element of the list reqHeaderAll returns; (c) referrer
and referer name the same header; (d) when the event has a multi-valued header
map, reqHeaderAll returns the value list of the last event entry whose
normalized (lowercased, referrer-read-as-referer) name matches the requested
normalized name, and reqGet returns the last value of that list — none when no
event entry matches or the matching list is empty. -/
theorem c10_header_lookup :
    (∀ evt n₁ n₂, jsToLower n₁ = jsToLower n₂ →
        reqGet evt n₁ = reqGet evt n₂ ∧ reqHeaderAll evt n₁ = reqHeaderAll evt n₂)
    ∧ (∀ evt n, reqGet evt n = (reqHeaderAll evt n).bind List.getLast?)
    ∧ (∀ evt, reqGet evt "referrer" = reqGet evt "referer"
        ∧ reqHeaderAll evt "Referrer" = reqHeaderAll evt "Referer")
    ∧ (∀ evt mvh n, evt.multiValueHeaders = some mvh →
        reqHeaderAll evt n = (relevantValues mvh (getHeaderKey n)).getLast?
        ∧ reqGet evt n = ((relevantValues mvh (getHeaderKey n)).getLast?).bind List.getLast?) := by
  have hkey : ∀ n₁ n₂ : String, jsToLower n₁ = jsToLower n₂ → getHeaderKey n₁ = getHeaderKey n₂ := by
    intro n₁ n₂ h
    unfold getHeaderKey
    rw [h]
  refine ⟨?_, ?_, ?_, ?_⟩
  · intro evt n₁ n₂ h
    have hk := hkey n₁ n₂ h
    constructor
    · unfold reqGet; rw [hk]
    · unfold reqHeaderAll; rw [hk]
  · intro evt n
    rfl
  · intro evt
    constructor
    · unfold reqGet
      rw [show getHeaderKey "referrer" = getHeaderKey "referer" from by decide]
    · unfold reqHeaderAll
      rw [show getHeaderKey "Referrer" = getHeaderKey "Referer" from by decide]
  · intro evt mvh n hm
    have hq := getHeaderKey_ne_referrer n
    have hparse : parseHeaders evt = mvh.foldl parseHeaderEntry [] := by
      unfold parseHeaders
      rw [hm]
    have hmain : (parseHeaders evt).lookup (getHeaderKey n)
        = (relevantValues mvh (getHeaderKey n)).getLast? := by
      rw [hparse, parse_foldl_lookup mvh [] (getHeaderKey n) hq]
      cases h : (relevantValues mvh (getHeaderKey n)).getLast? with
      | none => rfl
      | some x => rfl
    constructor
    · unfold reqHeaderAll; exact hmain
    · unfold reqGet; rw [hmain]

/-- C10 witness: the theorem applied to the concrete event (a Foo header
repeated with different cases, a Referer header looked up through the referrer
alias), hypotheses discharged by evaluation; the expected concrete values are
checked as well. -/
theorem c10_header_lookup_witness :
    (reqHeaderAll c10Event "fOo"
        = (relevantValues [("Foo", some ["a", "b"]), ("Referer", some ["r1"]),
            ("FOO", some ["c", "d"])] (getHeaderKey "fOo")).getLast?
      ∧ reqGet c10Event "fOo"
        = ((relevantValues [("Foo", some ["a", "b"]), ("Referer", some ["r1"]),
            ("FOO", some ["c", "d"])] (getHeaderKey "fOo")).getLast?).bind List.getLast?)
    ∧ reqGet c10Event "fOo" = some "d"
    ∧ reqGet c10Event "Referrer" = some "r1"
    ∧ reqGet c10Event "absent" = none := by
  refine ⟨c10_header_lookup.2.2.2 c10Event _ "fOo" rfl, ?_, ?_, ?_⟩ <;> decide

end LambdaExpress

namespace LambdaExpress

/-! ## Theorems about route parameter decoding (claim C3) -/

/-- C3 (divergence witness).  On the failing input of the repository test
suite — route /hello/:name, request path /hello/%EA — percent-decoding the
captured parameter fails, makeParams raises the URIError (statusCode 400), and
running the matched chain lets that exception escape synchronously (outcome
thrown) without the completion continuation ever being called, so the error
propagates out of Router.handle and Application.run and the callback never
fires; the claim (and the tests of ProcessorChain and
RouteMatchingProcessorChain) require the error to be delivered to the
continuation instead. -/
theorem c3_decode_failure_escapes_dispatch :
    decodeURIComponentM "%EA".toList = none
    ∧ makeParams false c3Pattern "/hello/%EA".toList = Except.error uriError400
    ∧ chainMatches c3Chain c3State = true
    ∧ runChain c3Chain JSVal.undef c3State = (COut.thrown uriError400, c3State)
    ∧ (runRouterCore [c3Chain] JSVal.undef c3State).1 = COut.thrown uriError400
    ∧ (applicationRun [c3Chain] c3State).2.resp.cbCalls.length = 0 := by
  refine ⟨by decide, by rfl, by decide, by decide, by decide, by decide⟩

/-! ## Theorems about case sensitivity at registration time (claim C9) -/

/-- C9.  The case-sensitivity used for matching is the one compiled into the
route chain when it was mounted: toggling the setting afterwards never touches
the already-registered chains (setSetting leaves the processor list unchanged;
mount compiles the sensitivity current at mount time into the pushed chain).
In the concrete scenario — enable the setting, mount GET /Foo, disable it,
mount GET /Foo again — the first chain still rejects /foo while the second,
registered after disabling, matches /foo and /Foo alike. -/
theorem c9_case_sensitivity_fixed_at_registration :
    (∀ (a : AppM) (name : String) (v : JSVal),
        (setSetting a name v).router.processors = a.router.processors)
    ∧ (∀ (r : RouterM) (m : Option String) (p : List Char) (ps : List Wrapped),
        (routerMount r m p ps).processors
          = r.processors ++ [Chain.route m (parsePattern p) r.caseSensitive ps])
    ∧ c9App.router.processors.map (fun c => chainMatches c (mkState "/foo".toList)) = [false, true]
    ∧ c9App.router.processors.map (fun c => chainMatches c (mkState "/Foo".toList)) = [true, true] := by
  refine ⟨?_, ?_, ?_, ?_⟩
  · intro a name v
    unfold setSetting
    split <;> rfl
  · intro r m p ps
    rfl
  · decide
  · decide

/-! ## Theorems about handler wrapping (claim C4) -/

/-- C4.  Away from the route sentinel, the wrapped four-argument handler at
the chain boundary behaves exactly as the reference definition from the claim:
a non-error handler given a truthy error forwards it unchanged without running
the original handler, an error handler given no error forwards with no
argument without running, and otherwise the original handler runs with a
synchronous throw or a promise rejection fed into next (the generic error
substituted for a value-free rejection) — never escaping as an uncaught
exception. -/
theorem c4_wrapped_handler_matches_reference (isErrH : Bool) (raw : JSVal → RawResult)
    (err : JSVal) (hroute : err ≠ routeSentinel) :
    boundaryStep isErrH raw err = refStep isErrH raw err := by
  have hr : (err == routeSentinel) = false := beq_eq_false_iff_ne.mpr hroute
  unfold boundaryStep refStep wrappedCall
  rw [if_neg (by rw [hr]; exact Bool.false_ne_true)]
  cases isErrH with
  | false =>
    cases ht : err.truthy with
    | true => simp [ht]
    | false =>
      simp only [ht, Bool.not_false, Bool.false_and, Bool.and_false, Bool.and_true,
        Bool.not_true, if_false]
      cases hw : raw err with
      | retPlain => simp
      | throwSync e => simp
      | retPromise o => cases o <;> simp
  | true =>
    cases ht : err.truthy with
    | true =>
      simp only [ht, Bool.not_true, Bool.true_and, Bool.and_false, Bool.false_and, if_false]
      cases hw : raw err with
      | retPlain => simp
      | throwSync e => simp
      | retPromise o => cases o <;> simp
    | false => simp [ht]

/-- C4 witness: the theorem applied to a concrete non-error handler whose
returned promise rejects with an empty (falsy) value and no error in flight;
the wrapper feeds the substitute generic error into next after running the
handler. -/
theorem c4_wrapped_handler_matches_reference_witness :
    boundaryStep false c4RejectingRaw JSVal.undef = refStep false c4RejectingRaw JSVal.undef
    ∧ boundaryStep false c4RejectingRaw JSVal.undef
        = (BoundaryOut.next genericRejectionError, true) := by
  refine ⟨c4_wrapped_handler_matches_reference false c4RejectingRaw JSVal.undef (by decide), ?_⟩
  rfl

end LambdaExpress

namespace LambdaExpress

/-! ## Theorems about the dispatch loop order (claim C2) -/

theorem applyOp_caseSensitive (r : RouterM) (op : RegOp) :
    (applyOp r op).caseSensitive = r.caseSensitive := by
  cases op <;> rfl

theorem applyOp_processors (r : RouterM) (op : RegOp) :
    (applyOp r op).processors = r.processors ++ opChains r.caseSensitive op := by
  cases op <;> rfl

theorem applyOps_processors : ∀ (ops : List RegOp) (r : RouterM),
    (applyOps r ops).processors = r.processors ++ ops.flatMap (opChains r.caseSensitive) := by
  intro ops
  induction ops with
  | nil => intro r; simp [applyOps]
  | cons op ops ih =>
    intro r
    have h1 : applyOps r (op :: ops) = applyOps (applyOp r op) ops := by
      simp [applyOps]
    rw [h1, ih (applyOp r op), applyOp_processors, applyOp_caseSensitive]
    simp [List.flatMap_cons, List.append_assoc]

theorem runRouterT_fst : ∀ (cs : List Chain) (err : JSVal) (s : DispatchState),
    (runRouterT cs err s).1 = runRouterCore cs err s := by
  intro cs
  induction cs with
  | nil => intro err s; rfl
  | cons c rest ih =>
    intro err s
    cases hm : chainMatches c s with
    | false => simp [runRouterT, runRouterCore, hm, ih]
    | true =>
      cases hrc : runChain c err s with
      | mk o s1 =>
        cases o <;> simp [runRouterT, runRouterCore, hm, hrc, ih]

theorem runRouterT_trace_prefix : ∀ (cs : List Chain) (err : JSVal) (s : DispatchState),
    ((runRouterT cs err s).2.map (fun t => t.1)) <+: cs := by
  intro cs
  induction cs with
  | nil => intro err s; exact List.nil_prefix
  | cons c rest ih =>
    intro err s
    cases hm : chainMatches c s with
    | false =>
      obtain ⟨t, ht⟩ := ih err s
      exact ⟨t, by simp [runRouterT, hm, ht]⟩
    | true =>
      cases hrc : runChain c err s with
      | mk o s1 =>
        cases o with
        | done e =>
          obtain ⟨t, ht⟩ := ih e s1
          exact ⟨t, by simp [runRouterT, hm, hrc, ht]⟩
        | halted => exact ⟨rest, by simp [runRouterT, hm, hrc]⟩
        | thrown e => exact ⟨rest, by simp [runRouterT, hm, hrc]⟩

theorem runRouterT_trace_complete : ∀ (cs : List Chain) (err : JSVal) (s : DispatchState)
    (e : JSVal), (runRouterCore cs err s).1 = COut.done e →
    ((runRouterT cs err s).2.map (fun t => t.1)) = cs := by
  intro cs
  induction cs with
  | nil => intro err s e _; rfl
  | cons c rest ih =>
    intro err s e hdone
    cases hm : chainMatches c s with
    | false =>
      have hcore : runRouterCore (c :: rest) err s = runRouterCore rest err s := by
        simp [runRouterCore, hm]
      rw [hcore] at hdone
      simp [runRouterT, hm, ih err s e hdone]
    | true =>
      cases hrc : runChain c err s with
      | mk o s1 =>
        cases o with
        | done e1 =>
          have hcore : runRouterCore (c :: rest) err s = runRouterCore rest e1 s1 := by
            simp [runRouterCore, hm, hrc]
          rw [hcore] at hdone
          simp [runRouterT, hm, hrc, ih e1 s1 e hdone]
        | halted =>
          have : (runRouterCore (c :: rest) err s).1 = COut.halted := by
            simp [runRouterCore, hm, hrc]
          rw [hdone] at this
          cases this
        | thrown e1 =>
          have : (runRouterCore (c :: rest) err s).1 = COut.thrown e1 := by
            simp [runRouterCore, hm, hrc]
          rw [hdone] at this
          cases this

theorem runRouterT_trace_head (c : Chain) (rest : List Chain) (err : JSVal)
    (s : DispatchState) :
    ((runRouterT (c :: rest) err s).2).head? = some (c, err, s) := by
  cases hm : chainMatches c s with
  | false => simp [runRouterT, hm]
  | true =>
    cases hrc : runChain c err s with
    | mk o s1 => cases o <;> simp [runRouterT, hm, hrc]

theorem runRouterT_trace_chain : ∀ (cs : List Chain) (err : JSVal) (s : DispatchState),
    List.Chain' stepRel ((runRouterT cs err s).2) := by
  intro cs
  induction cs with
  | nil => intro err s; exact List.chain'_nil
  | cons c rest ih =>
    intro err s
    cases hm : chainMatches c s with
    | false =>
      have htr : (runRouterT (c :: rest) err s).2
          = (c, err, s) :: (runRouterT rest err s).2 := by
        simp [runRouterT, hm]
      rw [htr]
      rw [List.chain'_cons']
      refine ⟨?_, ih err s⟩
      intro b hb
      cases rest with
      | nil => simp [runRouterT] at hb
      | cons c2 rest2 =>
        rw [runRouterT_trace_head c2 rest2 err s] at hb
        cases hb
        unfold stepRel
        rw [if_neg (by rw [hm]; exact Bool.false_ne_true)]
        exact ⟨rfl, rfl⟩
    | true =>
      cases hrc : runChain c err s with
      | mk o s1 =>
        cases o with
        | done e1 =>
          have htr : (runRouterT (c :: rest) err s).2
              = (c, err, s) :: (runRouterT rest e1 s1).2 := by
            simp [runRouterT, hm, hrc]
          rw [htr, List.chain'_cons']
          refine ⟨?_, ih e1 s1⟩
          intro b hb
          cases rest with
          | nil => simp [runRouterT] at hb
          | cons c2 rest2 =>
            rw [runRouterT_trace_head c2 rest2 e1 s1] at hb
            cases hb
            unfold stepRel
            rw [if_pos (by rw [hm])]
            rw [hrc]
            exact ⟨rfl, rfl⟩
        | halted =>
          have htr : (runRouterT (c :: rest) err s).2 = [(c, err, s)] := by
            simp [runRouterT, hm, hrc]
          rw [htr]
          exact List.chain'_singleton _
        | thrown e1 =>
          have htr : (runRouterT (c :: rest) err s).2 = [(c, err, s)] := by
            simp [runRouterT, hm, hrc]
          rw [htr]
          exact List.chain'_singleton _

/-- C2.  The dispatch loop walks the chains in exactly registration order,
matching each against the current request state: (a) every registration call
(use, mount, addSubRouter) appends its chains to the processor list, which is
never reordered; (b) the instrumented dispatch agrees with the dispatch; (c)
the consultation trace is always an in-order prefix of the registered list,
and (d) exactly the whole list when the dispatch runs to completion; (e)
consecutive consultations are linked by the step relation — the next predicate
is evaluated against precisely the error and state the previous matched chain
produced, mutations included; (f) concretely, a middleware that rewrites the
url to /goodbye and calls next makes the later /goodbye route match and send
200 within the same invocation, while the same router without the mutation
falls through to the 404 of the handler of last resort. -/
theorem c2_dispatch_walks_in_registration_order :
    (∀ (r : RouterM) (ops : List RegOp),
        (applyOps r ops).processors = r.processors ++ ops.flatMap (opChains r.caseSensitive))
    ∧ (∀ cs err s, (runRouterT cs err s).1 = runRouterCore cs err s)
    ∧ (∀ cs err s, ((runRouterT cs err s).2.map (fun t => t.1)) <+: cs)
    ∧ (∀ cs err s e, (runRouterCore cs err s).1 = COut.done e →
        ((runRouterT cs err s).2.map (fun t => t.1)) = cs)
    ∧ (∀ cs err s, List.Chain' stepRel ((runRouterT cs err s).2))
    ∧ ((applicationRun c2Chains c2State).2.resp.cbCalls.map (fun o => o.statusCode) = [200]
        ∧ (applicationRun c2ChainsStay c2State).2.resp.cbCalls.map (fun o => o.statusCode)
            = [404]) :=
  ⟨fun r ops => applyOps_processors ops r,
   runRouterT_fst,
   runRouterT_trace_prefix,
   runRouterT_trace_complete,
   runRouterT_trace_chain,
   by decide, by decide⟩

/-- C2 witness: the completeness part of the theorem applied to the concrete
two-chain router whose dispatch runs to completion — the consultation trace is
exactly the registered chain list, in order. -/
theorem c2_dispatch_walks_in_registration_order_witness :
    ((runRouterT c2ChainsStay JSVal.undef c2State).2.map (fun t => t.1)) = c2ChainsStay :=
  c2_dispatch_walks_in_registration_order.2.2.2.1 c2ChainsStay JSVal.undef c2State
    JSVal.undef (by decide)

end LambdaExpress

namespace LambdaExpress

/-! ## Theorems about the completion callback count (claim C1) -/

/-- C1 counterexample: the claim says the platform completion callback fires
exactly once for every invocation, naming in particular a handler that sends
the response and then calls next with the chain list exhausted; but on exactly
that input — one middleware that sends a 200 and calls next — Response.end has
no headers-sent guard and the handler of last resort sends unconditionally, so
the callback fires twice. -/
theorem c1_counterexample :
    (applicationRun c1Chains c1State).2.resp.cbCalls.length = 2
    ∧ (applicationRun c1Chains c1State).2.resp.cbCalls.length ≠ 1 := by
  exact ⟨by decide, by decide⟩

theorem applyPre_cbLen (s : DispatchState) (a : PreAct) :
    (applyPre s a).resp.cbCalls.length
      = s.resp.cbCalls.length
          + (match a with | PreAct.sendStatus _ => 1 | _ => 0) := by
  cases a with
  | sendStatus code => simp [applyPre, respSendStatus, respEnd, respStatus]
  | setReqUrl u => simp [applyPre]

theorem foldl_applyPre_cbLen : ∀ (pre : List PreAct) (s : DispatchState),
    ((pre.foldl applyPre s).resp.cbCalls.length)
      = s.resp.cbCalls.length
          + pre.countP (fun a => match a with | PreAct.sendStatus _ => true | _ => false) := by
  intro pre
  induction pre with
  | nil => intro s; simp
  | cons a pre ih =>
    intro s
    rw [List.foldl_cons, ih, applyPre_cbLen]
    cases a <;> (simp [List.countP_cons]; try omega)

theorem execRaw_cbLen (h : RawHandler) (s : DispatchState) :
    (execRaw h s).2.resp.cbCalls.length = s.resp.cbCalls.length + sendCount h := by
  unfold execRaw sendCount
  cases h.tail <;> simp [foldl_applyPre_cbLen]

theorem execRaw_halted (h : RawHandler) (s : DispatchState) :
    ((execRaw h s).1 = ExecOut.halted ↔ h.tail = HTail.halt) := by
  unfold execRaw
  cases h.tail <;> simp

theorem execWrapped_cbLen (w : Wrapped) (err : JSVal) (s : DispatchState)
    (hd : disciplinedRaw w.raw) :
    ((execWrapped w err s).1 = ExecOut.halted
        ∧ (execWrapped w err s).2.resp.cbCalls.length = s.resp.cbCalls.length + 1)
    ∨ ((execWrapped w err s).1 ≠ ExecOut.halted
        ∧ (execWrapped w err s).2.resp.cbCalls.length = s.resp.cbCalls.length) := by
  have hraw :
      ((execRaw w.raw s).1 = ExecOut.halted
          ∧ (execRaw w.raw s).2.resp.cbCalls.length = s.resp.cbCalls.length + 1)
      ∨ ((execRaw w.raw s).1 ≠ ExecOut.halted
          ∧ (execRaw w.raw s).2.resp.cbCalls.length = s.resp.cbCalls.length) := by
    rcases hd with ⟨h0, hne⟩ | ⟨h1, hh⟩
    · right
      constructor
      · exact fun hcontra => hne ((execRaw_halted w.raw s).mp hcontra)
      · rw [execRaw_cbLen, h0]
        omega
    · left
      constructor
      · exact (execRaw_halted w.raw s).mpr hh
      · rw [execRaw_cbLen, h1]
  unfold execWrapped
  cases hE : w.isErrorHandler with
  | true =>
    cases ht : err.truthy with
    | true => simpa using hraw
    | false => right; exact ⟨by simp, by simp⟩
  | false =>
    cases ht : err.truthy with
    | true => right; exact ⟨by simp, by simp⟩
    | false => simpa using hraw

theorem runProcs_cbLen : ∀ (ps : List Wrapped) (err : JSVal) (s : DispatchState),
    (∀ w ∈ ps, disciplinedRaw w.raw) →
    (∀ e, (runProcs ps err s).1 ≠ COut.thrown e)
    ∧ (∀ e, (runProcs ps err s).1 = COut.done e →
        (runProcs ps err s).2.resp.cbCalls.length = s.resp.cbCalls.length)
    ∧ ((runProcs ps err s).1 = COut.halted →
        (runProcs ps err s).2.resp.cbCalls.length = s.resp.cbCalls.length + 1) := by
  intro ps
  induction ps with
  | nil =>
    intro err s _
    refine ⟨?_, ?_, ?_⟩
    · intro e h; cases h
    · intro e _; rfl
    · intro h; cases h
  | cons w rest ih =>
    intro err s hd
    have hdw : disciplinedRaw w.raw := hd w (by simp)
    have hdrest : ∀ x ∈ rest, disciplinedRaw x.raw := fun x hx => hd x (by simp [hx])
    cases hs : (err == routeSentinel) with
    | true =>
      refine ⟨?_, ?_, ?_⟩
      · intro e h; simp [runProcs, hs] at h
      · intro e _; simp [runProcs, hs]
      · intro h; simp [runProcs, hs] at h
    | false =>
      cases hx : execWrapped w err s with
      | mk o s1 =>
        rcases execWrapped_cbLen w err s hdw with ⟨hh, hcb⟩ | ⟨hh, hcb⟩
        · -- the handler halted: the run stops here with one more send
          rw [hx] at hh hcb
          have ho : o = ExecOut.halted := hh
          subst ho
          refine ⟨?_, ?_, ?_⟩
          · intro e h; simp [runProcs, hs, hx] at h
          · intro e h; simp [runProcs, hs, hx] at h
          · intro _; simp [runProcs, hs, hx, hcb]
        · -- the handler continued (next or a caught throw): recurse
          rw [hx] at hh hcb
          cases o with
          | halted => exact absurd rfl hh
          | nextCall e1 =>
            have hrun : runProcs (w :: rest) err s = runProcs rest e1 s1 := by
              simp [runProcs, hs, hx]
            have hrest := ih e1 s1 hdrest
            rw [hrun]
            refine ⟨hrest.1, ?_, ?_⟩
            · intro e h
              rw [hrest.2.1 e h, hcb]
            · intro h
              rw [hrest.2.2 h, hcb]
          | threw e1 =>
            have hrun : runProcs (w :: rest) err s = runProcs rest e1 s1 := by
              simp [runProcs, hs, hx]
            have hrest := ih e1 s1 hdrest
            rw [hrun]
            refine ⟨hrest.1, ?_, ?_⟩
            · intro e h
              rw [hrest.2.1 e h, hcb]
            · intro h
              rw [hrest.2.2 h, hcb]

theorem chain_router_cbLen : ∀ n : Nat,
    (∀ c : Chain, sizeOf c ≤ n → GoodChain c → ∀ err s,
        CbBound s (runChain c err s).2 (runChain c err s).1)
    ∧ (∀ cs : List Chain, sizeOf cs ≤ n → (∀ c ∈ cs, GoodChain c) → ∀ err s,
        CbBound s (runRouterCore cs err s).2 (runRouterCore cs err s).1) := by
  intro n
  induction n using Nat.strong_induction_on with
  | _ n ih =>
    constructor
    · intro c hsz hg err s
      cases c with
      | matchAll ps =>
        cases hg with
        | matchAll _ hps =>
          have h := runProcs_cbLen ps err s hps
          exact ⟨h.2.1, h.2.2⟩
      | route m pat sens ps =>
        cases hg with
        | route _ _ _ _ hps =>
          cases hmk : makeParams sens pat (curReq s).path with
          | error e =>
            constructor
            · intro e1 h
              simp [runChain, hmk] at h
            · intro h
              simp [runChain, hmk] at h
          | ok params =>
            have h := runProcs_cbLen ps err
              ({ s with req := makeSubRequest s.req [] params }) hps
            cases hrp : runProcs ps err ({ s with req := makeSubRequest s.req [] params }) with
            | mk o s2 =>
              rw [hrp] at h
              have hrc : runChain (Chain.route m pat sens ps) err s
                  = (o, { s2 with req := s2.req.tail }) := by
                simp [runChain, hmk, hrp]
              rw [hrc]
              exact ⟨fun e he => h.2.1 e he, fun hh => h.2.2 hh⟩
      | sub pat chains =>
        cases hg with
        | sub _ _ hcs =>
          cases hle : looseExec pat (curReq s).path with
          | none =>
            constructor
            · intro e1 h
              simp [runChain, hle] at h
            · intro h
              simp [runChain, hle] at h
          | some m =>
            have hszc : sizeOf chains < n := by
              have : sizeOf chains < sizeOf (Chain.sub pat chains) := by
                simp [Chain.sub.sizeOf_spec]
              omega
            have hsub := (ih (sizeOf chains) hszc).2 chains (le_refl _) hcs err
              ({ s with req := makeSubRequest s.req (trimTrailingSlash m) [] })
            cases hrr : runRouterCore chains err
                ({ s with req := makeSubRequest s.req (trimTrailingSlash m) [] }) with
            | mk o s2 =>
              rw [hrr] at hsub
              have hrc : runChain (Chain.sub pat chains) err s
                  = (o, { s2 with req := s2.req.tail }) := by
                simp [runChain, hle, hrr]
              rw [hrc]
              exact ⟨fun e he => hsub.1 e he, fun hh => hsub.2 hh⟩
    · intro cs hsz hgs err s
      cases cs with
      | nil =>
        constructor
        · intro e _; rfl
        · intro h; cases h
      | cons c rest =>
        have hc : GoodChain c := hgs c (by simp)
        have hrest : ∀ x ∈ rest, GoodChain x := fun x hx => hgs x (by simp [hx])
        have hcons : sizeOf (c :: rest) = 1 + sizeOf c + sizeOf rest := by
          simp [List.cons.sizeOf_spec]
        have hszc : sizeOf c < n := by omega
        have hszr : sizeOf rest < n := by omega
        have ihc := (ih (sizeOf c) hszc).1 c (le_refl _) hc err s
        cases hm : chainMatches c s with
        | false =>
          have hcore : runRouterCore (c :: rest) err s = runRouterCore rest err s := by
            simp [runRouterCore, hm]
          rw [hcore]
          exact (ih (sizeOf rest) hszr).2 rest (le_refl _) hrest err s
        | true =>
          cases hrc : runChain c err s with
          | mk o s1 =>
            rw [hrc] at ihc
            cases o with
            | done e1 =>
              have hcore : runRouterCore (c :: rest) err s = runRouterCore rest e1 s1 := by
                simp [runRouterCore, hm, hrc]
              rw [hcore]
              have ihr := (ih (sizeOf rest) hszr).2 rest (le_refl _) hrest e1 s1
              have hsame : s1.resp.cbCalls.length = s.resp.cbCalls.length := ihc.1 e1 rfl
              constructor
              · intro e he
                rw [ihr.1 e he, hsame]
              · intro hh
                rw [ihr.2 hh, hsame]
            | halted =>
              have hcore : runRouterCore (c :: rest) err s = (COut.halted, s1) := by
                simp [runRouterCore, hm, hrc]
              rw [hcore]
              constructor
              · intro e he; cases he
              · intro _; exact ihc.2 rfl
            | thrown e1 =>
              have hcore : runRouterCore (c :: rest) err s = (COut.thrown e1, s1) := by
                simp [runRouterCore, hm, hrc]
              rw [hcore]
              constructor
              · intro e he; cases he
              · intro hh; cases hh

/-- C1 amended.  For every invocation whose handlers are all disciplined —
each handler either sends the response exactly once and then stops, or never
sends and finishes by calling next or throwing — and whose dispatch does not
let an exception escape (no malformed path-parameter encoding and no
sub-router mount mismatch), the platform completion callback fires exactly
once: either some handler sent the one response and stopped, or the chain list
ran to completion and the handler of last resort sent the one 404 or 500.
Without the discipline the count can differ — see the counterexample, where a
handler sends and then calls next and the callback fires twice. -/
theorem c1_callback_fires_once (chains : List Chain) (s : DispatchState)
    (hgood : ∀ c ∈ chains, GoodChain c) (hcb : s.resp.cbCalls = [])
    (hnt : ∀ e, (applicationRun chains s).1 ≠ COut.thrown e) :
    (applicationRun chains s).2.resp.cbCalls.length = 1 := by
  have h := (chain_router_cbLen (sizeOf chains)).2 chains (le_refl _) hgood JSVal.undef s
  cases hr : runRouterCore chains JSVal.undef s with
  | mk o s1 =>
    rw [hr] at h
    cases o with
    | done e =>
      have happ : applicationRun chains s
          = (COut.done e,
             { s1 with resp := respSendStatus (if e.truthy then 500 else 404) s1.resp }) := by
        simp [applicationRun, hr]
      rw [happ]
      have hsame : s1.resp.cbCalls.length = s.resp.cbCalls.length := h.1 e rfl
      simp [respSendStatus, respEnd, respStatus, hsame, hcb]
    | halted =>
      have happ : applicationRun chains s = (COut.halted, s1) := by
        simp [applicationRun, hr]
      rw [happ]
      have := h.2 rfl
      rw [this, hcb]
      rfl
    | thrown e =>
      exfalso
      apply hnt e
      have happ : applicationRun chains s = (COut.thrown e, s1) := by
        simp [applicationRun, hr]
      rw [happ]

/-- C1 amended witness: the theorem applied to a concrete router with one
disciplined middleware that sends a 200 response and stops — the callback
fires exactly once. -/
theorem c1_callback_fires_once_witness :
    (applicationRun c1GoodChains c1State).2.resp.cbCalls.length = 1 := by
  apply c1_callback_fires_once
  · intro c hc
    have hc1 : c = Chain.matchAll
        [{ isErrorHandler := false
           raw := { pre := [PreAct.sendStatus 200], tail := HTail.halt } }] := by
      simpa [c1GoodChains] using hc
    subst hc1
    apply GoodChain.matchAll
    intro w hw
    have hw1 : w = { isErrorHandler := false
                     raw := { pre := [PreAct.sendStatus 200], tail := HTail.halt } } := by
      simpa using hw
    subst hw1
    exact Or.inr ⟨by decide, rfl⟩
  · rfl
  · intro e h
    have hv : (applicationRun c1GoodChains c1State).1 = COut.halted := by decide
    rw [hv] at h
    cases h

end LambdaExpress
